import Mathlib

/-
Verification of the micrograd-rs scalar reverse-mode autodiff engine.

The Rust engine (src/value.rs, src/value/ops.rs, and its duplicate inside
src/main.rs) stores each scalar as a `Value` whose `data` and `grad` fields
are `Rc<RefCell<f32>>` cells; cloning a `Value` aliases the same two cells,
and a node's provenance (`op`) holds such aliases of its operands.  We model
the heap of cells as an arena: a list of nodes addressed by index, where one
index stands for one shared cell pair (two Rust aliases of one `Value` are
the same index).  `f32` is modelled as an arbitrary field `α`; the float
library functions `exp`, `tanh`, `powf` are a parameter record `FloatFns`,
instantiated with the real functions (or with junk, for structural facts
that do not depend on them).
-/

set_option maxHeartbeats 1000000
set_option linter.unusedSectionVars false

namespace MG

/-- Operator tag of a non-leaf node, mirroring `enum Operation` in
src/value.rs (and the duplicate in src/main.rs).  Each variant stores the
arena indices of its operands. -/
inductive Op where
  | tanh (a : Nat)
  | exp (a : Nat)
  | pow (a k : Nat)
  | add (a b : Nat)
  | mul (a b : Nat)
deriving DecidableEq, Repr

/-- One node of the graph: the `data` and `grad` cells of `struct Value`
plus its provenance `op`.  The display-only `label : Option<String>` field
carries no semantics (spec section 3) and is dropped. -/
structure Node (α : Type) where
  data : α
  grad : α
  op : Option Op
deriving DecidableEq, Repr

/-- The arena of allocated nodes; an index into it is a node identity. -/
abbrev Graph (α : Type) := List (Node α)

/-- Abstract model of the three `f32` library functions the engine calls:
`f32::exp`, `f32::tanh` and `f32::powf`. -/
structure FloatFns (α : Type) where
  fexp : α → α
  ftanh : α → α
  fpowf : α → α → α

variable {α : Type} [CommRing α] [Div α]

/-- Default node used for out-of-range reads (never reached on indices the
Rust program can produce). -/
def dNode : Node α := ⟨0, 0, none⟩

/-- Read the `data` cell of node `i`. -/
def dataAt (g : Graph α) (i : Nat) : α := (g.getD i dNode).data

/-- Read the `grad` cell of node `i`. -/
def gradAt (g : Graph α) (i : Nat) : α := (g.getD i dNode).grad

/-- Read the provenance of node `i`. -/
def opAt (g : Graph α) (i : Nat) : Option Op := (g.getD i dNode).op

/-- Write the `grad` cell of node `i` (`*v.grad.borrow_mut() = x`). -/
def setGrad (g : Graph α) (i : Nat) (x : α) : Graph α :=
  g.set i { g.getD i dNode with grad := x }

/-- Accumulate into the `grad` cell of node `i`
(`*v.grad.borrow_mut() += d`): a read of the current value followed by a
write of the sum. -/
def incGrad (g : Graph α) (i : Nat) (d : α) : Graph α :=
  setGrad g i (gradAt g i + d)

/-- `Value::new(data, label)`: allocate a leaf with gradient `0` and no
provenance; returns the grown arena and the new node's index. -/
def new (g : Graph α) (x : α) : Graph α × Nat :=
  (g ++ [⟨x, 0, none⟩], g.length)

/-- `impl Add for Value` (src/value/ops.rs, identical in src/main.rs):
allocate a node whose data is the sum of the operands' data, gradient `0`,
provenance `Add(a, b)`. -/
def add (g : Graph α) (a b : Nat) : Graph α × Nat :=
  (g ++ [⟨dataAt g a + dataAt g b, 0, some (.add a b)⟩], g.length)

/-- `impl Mul for Value`: product node with provenance `Mul(a, b)`. -/
def mul (g : Graph α) (a b : Nat) : Graph α × Nat :=
  (g ++ [⟨dataAt g a * dataAt g b, 0, some (.mul a b)⟩], g.length)

/-- `Value::pow(self, other)`: `self.data.powf(other.data)` with provenance
`Pow(self, other)`. -/
def pow (F : FloatFns α) (g : Graph α) (a k : Nat) : Graph α × Nat :=
  (g ++ [⟨F.fpowf (dataAt g a) (dataAt g k), 0, some (.pow a k)⟩], g.length)

/-- `Value::exp(self)`: `self.data.exp()` with provenance `Exp(self)`. -/
def exp (F : FloatFns α) (g : Graph α) (a : Nat) : Graph α × Nat :=
  (g ++ [⟨F.fexp (dataAt g a), 0, some (.exp a)⟩], g.length)

/-- `Value::tanh(self)`: forward value
`((2x).exp() - 1) / ((2x).exp() + 1)` with provenance `Tanh(self)`. -/
def tanh (F : FloatFns α) (g : Graph α) (a : Nat) : Graph α × Nat :=
  (g ++
      [⟨(F.fexp (2 * dataAt g a) - 1) / (F.fexp (2 * dataAt g a) + 1), 0,
        some (.tanh a)⟩],
    g.length)

/-- `Value::powf(self, other: f32)`: promote the scalar exponent to a leaf
node, then apply `pow`. -/
def powf (F : FloatFns α) (g : Graph α) (a : Nat) (c : α) : Graph α × Nat :=
  let p := new g c
  pow F p.1 a p.2

/-- `impl Mul<f32> for Value`: promote the scalar to a leaf, then `mul`. -/
def mul_scalar (g : Graph α) (a : Nat) (c : α) : Graph α × Nat :=
  let p := new g c
  mul p.1 a p.2

/-- `impl Mul<Value> for f32`: promote the scalar to a leaf (left operand),
then `mul`. -/
def scalar_mul (g : Graph α) (c : α) (a : Nat) : Graph α × Nat :=
  let p := new g c
  mul p.1 p.2 a

/-- `impl Add<f32> for Value`: promote the scalar to a leaf, then `add`. -/
def add_scalar (g : Graph α) (a : Nat) (c : α) : Graph α × Nat :=
  let p := new g c
  add p.1 a p.2

/-- `impl Add<Value> for f32`: promote the scalar to a leaf (left operand),
then `add`. -/
def scalar_add (g : Graph α) (c : α) (a : Nat) : Graph α × Nat :=
  let p := new g c
  add p.1 p.2 a

/-- `impl Neg for Value`: `self * -1f32`. -/
def neg (g : Graph α) (a : Nat) : Graph α × Nat :=
  mul_scalar g a (-1)

/-- `impl Sub for Value`: `self + -other`. -/
def sub (g : Graph α) (a b : Nat) : Graph α × Nat :=
  let p := neg g b
  add p.1 a p.2

/-- `impl Sub<f32> for Value`: promote the scalar, then `sub`. -/
def sub_scalar (g : Graph α) (a : Nat) (c : α) : Graph α × Nat :=
  let p := new g c
  sub p.1 a p.2

/-- `impl Sub<Value> for f32`: promote the scalar (left operand), then
`sub`. -/
def scalar_sub (g : Graph α) (c : α) (a : Nat) : Graph α × Nat :=
  let p := new g c
  sub p.1 p.2 a

/-- `impl Div for Value`: `self * other.powf(-1f32)` — the reciprocal is
built through the `Pow` primitive. -/
def div (F : FloatFns α) (g : Graph α) (a b : Nat) : Graph α × Nat :=
  let p := powf F g b (-1)
  mul p.1 a p.2

/-- `impl Div<f32> for Value`: `self * other.powf(-1f32)` where `other` is
an `f32`, so `powf` here is `f32::powf`: the reciprocal is computed in
scalar arithmetic and only then promoted to a leaf by `Mul<f32>` — no
`Pow` node is allocated. -/
def div_scalar (F : FloatFns α) (g : Graph α) (a : Nat) (c : α) :
    Graph α × Nat :=
  mul_scalar g a (F.fpowf c (-1))

/-- `impl Sum for Value`: left fold over `+` starting from a fresh zero
leaf (`iter.fold(Value::new(0.0, "0"), |acc, x| acc + x)`). -/
def sum (g : Graph α) (is : List Nat) : Graph α × Nat :=
  is.foldl (fun p j => add p.1 p.2 j) (new g 0)

/-- `Value::backward` of src/value.rs: one application of the local
backward rule of node `i`, each `+=` modelled as a read-modify-write on the
current arena.  The Tanh branch recomputes `f32::tanh` of the operand's
data (`a.data.borrow().tanh()`). -/
def backward (F : FloatFns α) (g : Graph α) (i : Nat) : Graph α :=
  match opAt g i with
  | none => g
  | some (.tanh a) =>
      incGrad g a ((1 - F.ftanh (dataAt g a) ^ 2) * gradAt g i)
  | some (.exp a) => incGrad g a (dataAt g i * gradAt g i)
  | some (.pow a k) =>
      incGrad g a
        (dataAt g k * F.fpowf (dataAt g a) (dataAt g k - 1) * gradAt g i)
  | some (.add a b) =>
      let g1 := incGrad g a (gradAt g i)
      incGrad g1 b (gradAt g1 i)
  | some (.mul a b) =>
      let g1 := incGrad g a (dataAt g b * gradAt g i)
      incGrad g1 b (dataAt g1 a * gradAt g1 i)

/-- `Value::backward` of src/main.rs: identical to the src/value.rs copy
except the Tanh branch, which reads `x = *self.data.borrow()` — the Tanh
node's OWN output — and applies the squash formula to it. -/
def backward_main (F : FloatFns α) (g : Graph α) (i : Nat) : Graph α :=
  match opAt g i with
  | none => g
  | some (.tanh a) =>
      incGrad g a
        ((1 -
              ((F.fexp (2 * dataAt g i) - 1) /
                  (F.fexp (2 * dataAt g i) + 1)) ^ 2) *
          gradAt g i)
  | some (.exp a) => incGrad g a (dataAt g i * gradAt g i)
  | some (.pow a k) =>
      incGrad g a
        (dataAt g k * F.fpowf (dataAt g a) (dataAt g k - 1) * gradAt g i)
  | some (.add a b) =>
      let g1 := incGrad g a (gradAt g i)
      incGrad g1 b (gradAt g1 i)
  | some (.mul a b) =>
      let g1 := incGrad g a (dataAt g b * gradAt g i)
      incGrad g1 b (dataAt g1 a * gradAt g1 i)

/-- The recursive `build_topo` helper of `Value::reversed_topo`: descend
into the operands (left first), then push the current node.  There is no
visited set: a node is pushed once per path reaching it.  The extra fuel
argument bounds the recursion depth; on graphs whose operands have smaller
indices than their consumers (the only graphs the constructors build),
fuel `i + 1` is exact and larger fuel changes nothing (proved below). -/
def build_topo (g : Graph α) : Nat → Nat → List Nat
  | 0, _ => []
  | fuel + 1, i =>
    (match opAt g i with
      | some (.add a b) | some (.mul a b) | some (.pow a b) =>
        build_topo g fuel a ++ build_topo g fuel b
      | some (.tanh a) | some (.exp a) => build_topo g fuel a
      | none => []) ++ [i]

/-- `Value::reversed_topo`: run `build_topo` from the root, then reverse
the collected list. -/
def reversed_topo (g : Graph α) (i : Nat) : List Nat :=
  (build_topo g (i + 1) i).reverse

/-- `Value::full_backward`: compute the reversed topological list, seed the
root gradient with `1.0` (a plain write), then replay `backward` over the
list. -/
def full_backward (F : FloatFns α) (g : Graph α) (r : Nat) : Graph α :=
  let topo := reversed_topo g r
  let g1 := setGrad g r 1
  topo.foldl (fun acc i => backward F acc i) g1

/-- `Value::full_backward` of src/main.rs: same loop, with that copy's
`backward`. -/
def full_backward_main (F : FloatFns α) (g : Graph α) (r : Nat) : Graph α :=
  let topo := reversed_topo g r
  let g1 := setGrad g r 1
  topo.foldl (fun acc i => backward_main F acc i) g1

/-- A provenance tag is admissible at index `i` when all its operand
indices are strictly smaller: operands are created strictly before their
consumers. -/
def Op.okAt : Op → Nat → Bool
  | .tanh a, i => a < i
  | .exp a, i => a < i
  | .pow a k, i => a < i && k < i
  | .add a b, i => a < i && b < i
  | .mul a b, i => a < i && b < i

/-- Check every node of a list against its index, starting at offset `k`. -/
def wfFrom : List (Node α) → Nat → Bool
  | [], _ => true
  | n :: rest, k =>
    (match n.op with
      | none => true
      | some o => o.okAt k) &&
      wfFrom rest (k + 1)

/-- A graph is well formed when every node's operands precede it.  Every
graph the public constructors can build is well formed (proved below), and
on well-formed graphs the `build_topo` recursion terminates. -/
def WFb (g : Graph α) : Bool := wfFrom g 0

/-- Closure of the public construction surface: the graphs reachable from
`g` by leaf creation and the five primitive operators applied to existing
nodes (every derived operator is a composition of these, see the
src/value/ops.rs embedding above). -/
inductive Built (F : FloatFns α) : Graph α → Graph α → Prop where
  | refl (g : Graph α) : Built F g g
  | leaf {g g' : Graph α} (x : α) : Built F g g' → Built F g (new g' x).1
  | addStep {g g' : Graph α} {i j : Nat} : Built F g g' → i < g'.length →
      j < g'.length → Built F g (add g' i j).1
  | mulStep {g g' : Graph α} {i j : Nat} : Built F g g' → i < g'.length →
      j < g'.length → Built F g (mul g' i j).1
  | powStep {g g' : Graph α} {i j : Nat} : Built F g g' → i < g'.length →
      j < g'.length → Built F g (pow F g' i j).1
  | expStep {g g' : Graph α} {i : Nat} : Built F g g' → i < g'.length →
      Built F g (exp F g' i).1
  | tanhStep {g g' : Graph α} {i : Nat} : Built F g g' → i < g'.length →
      Built F g (tanh F g' i).1

/-- True when some node of the graph is a Tanh node. -/
def hasTanh (g : Graph α) : Bool :=
  g.any fun n =>
    match n.op with
    | some (.tanh _) => true
    | _ => false

/-- Junk instantiation of the float functions over the integers, for the
structural facts that never evaluate them. -/
def zFns : FloatFns ℤ := ⟨fun x => x, fun x => x, fun a _ => a⟩

/-- Real-valued model of `f32::tanh`: the engine's own squash formula.  It
agrees with the mathematical hyperbolic tangent (lemma `tanhR_eq_tanh`
below). -/
noncomputable def tanhR (x : ℝ) : ℝ :=
  (Real.exp (2 * x) - 1) / (Real.exp (2 * x) + 1)

/-- Real instantiation of the float library functions. -/
noncomputable def rFns : FloatFns ℝ := ⟨Real.exp, tanhR, fun a k => Real.rpow a k⟩

/-- The graph of `y = x + x` for a single leaf `x` with value `3`: the one
leaf is node `0`, used as both operands of the Add node `1`. -/
def gxx : Graph ℤ := (add (new ([] : Graph ℤ) 3).1 0 0).1

/-- The graph of `t = s * s` where `s = a + b`, `a` and `b` leaves of value
`1`: nodes `0`, `1` the leaves, node `2` the shared Add, node `3` the Mul
consuming node `2` twice. -/
def gss : Graph ℤ :=
  (mul (add (new (new ([] : Graph ℤ) 1).1 1).1 0 1).1 2 2).1

/-- Two structurally identical leaves of value `3` (distinct cells), summed
by the Add node `2`. -/
def gxy : Graph ℤ := (add (new (new ([] : Graph ℤ) 3).1 3).1 0 1).1

/-- A single leaf of value `5`, base graph for the derived-operator
facts. -/
def g5 : Graph ℤ := (new ([] : Graph ℤ) 5).1

/-- The graph of `o = tanh x` for a leaf `x` with value `1`, over the
reals. -/
noncomputable def gtanh : Graph ℝ := (tanh rFns (new ([] : Graph ℝ) 1).1 0).1

/-- The amount the backward rule of node `i` adds to the gradient of node
`j`, read off the local-rule table of spec section 4.2: zero unless `j` is
an operand of `i`, and contributions through both operand slots add up. -/
def delta (F : FloatFns α) (g : Graph α) (i j : Nat) : α :=
  match opAt g i with
  | none => 0
  | some (.tanh a) =>
      if j = a then (1 - F.ftanh (dataAt g a) ^ 2) * gradAt g i else 0
  | some (.exp a) => if j = a then dataAt g i * gradAt g i else 0
  | some (.pow a k) =>
      if j = a then
        dataAt g k * F.fpowf (dataAt g a) (dataAt g k - 1) * gradAt g i
      else 0
  | some (.add a b) =>
      (if j = a then gradAt g i else 0) + (if j = b then gradAt g i else 0)
  | some (.mul a b) =>
      (if j = a then dataAt g b * gradAt g i else 0) +
        (if j = b then dataAt g a * gradAt g i else 0)

/-- Modelled from the claim's wording for scalar-mixed division: first
promote the scalar divisor to a leaf node, then apply the Value-by-Value
division (which routes through the `Pow` primitive).  Stated for
comparison with `div_scalar`, the code's behaviour. -/
def div_scalar_spec (F : FloatFns α) (g : Graph α) (a : Nat) (c : α) :
    Graph α × Nat :=
  let p := new g c
  div F p.1 a p.2

theorem getD_append_lt (g : Graph α) (n : Node α) {j : Nat}
    (h : j < g.length) : (g ++ [n]).getD j dNode = g.getD j dNode :=
  List.getD_append _ _ _ _ h

theorem getD_append_len (g : Graph α) (n : Node α) :
    (g ++ [n]).getD g.length dNode = n := by
  rw [List.getD_eq_getElem?_getD, List.getElem?_concat_length]
  rfl

theorem getD_oob (g : Graph α) {j : Nat} (h : g.length ≤ j) :
    g.getD j dNode = dNode := by
  rw [List.getD_eq_getElem?_getD, List.getElem?_len_le h]
  rfl

theorem length_setGrad (g : Graph α) (i : Nat) (x : α) :
    (setGrad g i x).length = g.length :=
  List.length_set ..

theorem getD_setGrad (g : Graph α) (i : Nat) (x : α) (j : Nat) :
    (setGrad g i x).getD j dNode =
      if i = j ∧ i < g.length then { g.getD i dNode with grad := x }
      else g.getD j dNode := by
  rw [setGrad, List.getD_eq_getElem?_getD, List.getElem?_set]
  by_cases hij : i = j
  · subst hij
    by_cases hl : i < g.length
    · simp [hl]
    · simp [hl, getD_oob g (Nat.le_of_not_lt hl),
        List.getElem?_len_le (Nat.le_of_not_lt hl)]
  · simp [hij, ← List.getD_eq_getElem?_getD]

theorem dataAt_setGrad (g : Graph α) (i : Nat) (x : α) (j : Nat) :
    dataAt (setGrad g i x) j = dataAt g j := by
  rw [dataAt, dataAt, getD_setGrad]
  split
  · rename_i h
    rw [h.1]
  · rfl

theorem opAt_setGrad (g : Graph α) (i : Nat) (x : α) (j : Nat) :
    opAt (setGrad g i x) j = opAt g j := by
  rw [opAt, opAt, getD_setGrad]
  split
  · rename_i h
    rw [h.1]
  · rfl

theorem gradAt_setGrad_self (g : Graph α) {i : Nat} (x : α)
    (h : i < g.length) : gradAt (setGrad g i x) i = x := by
  rw [gradAt, getD_setGrad]
  simp [h]

theorem gradAt_setGrad_ne (g : Graph α) {i : Nat} (x : α) {j : Nat}
    (h : i ≠ j) : gradAt (setGrad g i x) j = gradAt g j := by
  rw [gradAt, gradAt, getD_setGrad]
  simp [h]

theorem setGrad_oob (g : Graph α) {i : Nat} (x : α) (h : g.length ≤ i) :
    setGrad g i x = g :=
  List.set_eq_of_length_le h

theorem setGrad_setGrad (g : Graph α) (i : Nat) (x y : α) :
    setGrad (setGrad g i x) i y = setGrad g i y := by
  by_cases h : i < g.length
  · simp only [setGrad, List.set_set]
    congr 1
    have h1 : (List.set g i { g.getD i dNode with grad := x }).getD i dNode =
        { g.getD i dNode with grad := x } := by
      rw [List.getD_eq_getElem?_getD,
        List.getElem?_set_self (by simpa using h)]
      rfl
    rw [h1]
  · rw [setGrad_oob g x (Nat.le_of_not_lt h)]

theorem dataAt_incGrad (g : Graph α) (i : Nat) (d : α) (j : Nat) :
    dataAt (incGrad g i d) j = dataAt g j :=
  dataAt_setGrad ..

theorem opAt_incGrad (g : Graph α) (i : Nat) (d : α) (j : Nat) :
    opAt (incGrad g i d) j = opAt g j :=
  opAt_setGrad ..

theorem gradAt_incGrad_self (g : Graph α) {i : Nat} (d : α)
    (h : i < g.length) : gradAt (incGrad g i d) i = gradAt g i + d :=
  gradAt_setGrad_self g _ h

theorem gradAt_incGrad_ne (g : Graph α) {i : Nat} (d : α) {j : Nat}
    (h : i ≠ j) : gradAt (incGrad g i d) j = gradAt g j :=
  gradAt_setGrad_ne g _ h

theorem length_incGrad (g : Graph α) (i : Nat) (d : α) :
    (incGrad g i d).length = g.length :=
  length_setGrad ..

theorem dataAt_backward (F : FloatFns α) (g : Graph α) (i j : Nat) :
    dataAt (backward F g i) j = dataAt g j := by
  unfold backward
  split <;> simp [dataAt_incGrad]

theorem opAt_backward (F : FloatFns α) (g : Graph α) (i j : Nat) :
    opAt (backward F g i) j = opAt g j := by
  unfold backward
  split <;> simp [opAt_incGrad]

theorem length_backward (F : FloatFns α) (g : Graph α) (i : Nat) :
    (backward F g i).length = g.length := by
  unfold backward
  split <;> simp [length_incGrad]

theorem dataAt_backward_main (F : FloatFns α) (g : Graph α) (i j : Nat) :
    dataAt (backward_main F g i) j = dataAt g j := by
  unfold backward_main
  split <;> simp [dataAt_incGrad]

theorem opAt_backward_main (F : FloatFns α) (g : Graph α) (i j : Nat) :
    opAt (backward_main F g i) j = opAt g j := by
  unfold backward_main
  split <;> simp [opAt_incGrad]

theorem build_topo_congr {g1 g2 : Graph α}
    (h : ∀ k, opAt g1 k = opAt g2 k) (fuel i : Nat) :
    build_topo g1 fuel i = build_topo g2 fuel i := by
  induction fuel generalizing i with
  | zero => rfl
  | succ n ih =>
    rw [build_topo, build_topo, h i]
    cases hop : opAt g2 i with
    | none => rfl
    | some o => cases o <;> simp [ih]

theorem reversed_topo_congr {g1 g2 : Graph α}
    (h : ∀ k, opAt g1 k = opAt g2 k) (i : Nat) :
    reversed_topo g1 i = reversed_topo g2 i := by
  rw [reversed_topo, reversed_topo, build_topo_congr h]

theorem reversed_topo_head (g : Graph α) (i : Nat) :
    (reversed_topo g i).head? = some i := by
  rw [reversed_topo, build_topo]
  simp

theorem opAt_lt_length {g : Graph α} {i : Nat} {o : Op}
    (h : opAt g i = some o) : i < g.length := by
  by_contra hc
  rw [opAt, getD_oob g (Nat.le_of_not_lt hc)] at h
  simp [dNode] at h

theorem wfFrom_getD {g : Graph α} :
    ∀ {k : Nat}, wfFrom g k = true →
      ∀ j o, (g.getD j dNode).op = some o → o.okAt (k + j) = true := by
  induction g with
  | nil =>
    intro k _ j o hj
    rw [getD_oob _ (Nat.zero_le j)] at hj
    simp [dNode] at hj
  | cons n rest ih =>
    intro k hwf j o hj
    rw [wfFrom, Bool.and_eq_true] at hwf
    cases j with
    | zero =>
      simp only [List.getD_cons_zero] at hj
      have := hwf.1
      rw [hj] at this
      simpa using this
    | succ m =>
      simp only [List.getD_cons_succ] at hj
      have := ih hwf.2 m o hj
      have harith : k + 1 + m = k + (m + 1) := by omega
      rwa [harith] at this

theorem wfb_opAt {g : Graph α} (hwf : WFb g = true) {i : Nat} {o : Op}
    (h : opAt g i = some o) : o.okAt i = true := by
  have := wfFrom_getD (g := g) hwf i o h
  simpa using this

theorem build_topo_stable {g : Graph α} (hwf : WFb g = true) :
    ∀ i fuel1 fuel2, i < fuel1 → i < fuel2 →
      build_topo g fuel1 i = build_topo g fuel2 i := by
  intro i
  induction i using Nat.strong_induction_on with
  | _ i ih =>
    intro fuel1 fuel2 h1 h2
    obtain ⟨f1, rfl⟩ : ∃ f, fuel1 = f + 1 := ⟨fuel1 - 1, by omega⟩
    obtain ⟨f2, rfl⟩ : ∃ f, fuel2 = f + 1 := ⟨fuel2 - 1, by omega⟩
    rw [build_topo, build_topo]
    cases hop : opAt g i with
    | none => rfl
    | some o =>
      have hok := wfb_opAt hwf hop
      cases o with
      | tanh a =>
        simp only [Op.okAt, decide_eq_true_eq] at hok
        simp only [ih a hok f1 f2 (by omega) (by omega)]
      | exp a =>
        simp only [Op.okAt, decide_eq_true_eq] at hok
        simp only [ih a hok f1 f2 (by omega) (by omega)]
      | pow a k =>
        simp only [Op.okAt, Bool.and_eq_true, decide_eq_true_eq] at hok
        simp only [ih a hok.1 f1 f2 (by omega) (by omega),
          ih k hok.2 f1 f2 (by omega) (by omega)]
      | add a b =>
        simp only [Op.okAt, Bool.and_eq_true, decide_eq_true_eq] at hok
        simp only [ih a hok.1 f1 f2 (by omega) (by omega),
          ih b hok.2 f1 f2 (by omega) (by omega)]
      | mul a b =>
        simp only [Op.okAt, Bool.and_eq_true, decide_eq_true_eq] at hok
        simp only [ih a hok.1 f1 f2 (by omega) (by omega),
          ih b hok.2 f1 f2 (by omega) (by omega)]

theorem wfFrom_append (l1 l2 : List (Node α)) (k : Nat) :
    wfFrom (l1 ++ l2) k = (wfFrom l1 k && wfFrom l2 (k + l1.length)) := by
  induction l1 generalizing k with
  | nil => simp [wfFrom]
  | cons n rest ih =>
    rw [List.cons_append, wfFrom, wfFrom, ih, Bool.and_assoc]
    have harith : k + 1 + rest.length = k + (rest.length + 1) := by omega
    rw [harith]
    rfl

theorem Built.length_le {F : FloatFns α} {g g' : Graph α}
    (h : Built F g g') : g.length ≤ g'.length := by
  induction h with
  | refl => exact Nat.le_refl _
  | leaf x _ ih => simpa [new] using Nat.le_succ_of_le ih
  | addStep _ _ _ ih => simpa [add] using Nat.le_succ_of_le ih
  | mulStep _ _ _ ih => simpa [mul] using Nat.le_succ_of_le ih
  | powStep _ _ _ ih => simpa [pow] using Nat.le_succ_of_le ih
  | expStep _ _ ih => simpa [exp] using Nat.le_succ_of_le ih
  | tanhStep _ _ ih => simpa [tanh] using Nat.le_succ_of_le ih

theorem Built.getD_frame {F : FloatFns α} {g g' : Graph α}
    (h : Built F g g') : ∀ j < g.length, g'.getD j dNode = g.getD j dNode := by
  induction h with
  | refl => exact fun _ _ => rfl
  | leaf x hb ih =>
    intro j hj
    rw [new, getD_append_lt _ _ (Nat.lt_of_lt_of_le hj hb.length_le), ih j hj]
  | addStep hb _ _ ih =>
    intro j hj
    rw [add, getD_append_lt _ _ (Nat.lt_of_lt_of_le hj hb.length_le), ih j hj]
  | mulStep hb _ _ ih =>
    intro j hj
    rw [mul, getD_append_lt _ _ (Nat.lt_of_lt_of_le hj hb.length_le), ih j hj]
  | powStep hb _ _ ih =>
    intro j hj
    rw [pow, getD_append_lt _ _ (Nat.lt_of_lt_of_le hj hb.length_le), ih j hj]
  | expStep hb _ ih =>
    intro j hj
    rw [exp, getD_append_lt _ _ (Nat.lt_of_lt_of_le hj hb.length_le), ih j hj]
  | tanhStep hb _ ih =>
    intro j hj
    rw [tanh, getD_append_lt _ _ (Nat.lt_of_lt_of_le hj hb.length_le), ih j hj]

theorem WFb_append_ok {g : Graph α} {n : Node α} (hwf : WFb g = true)
    (hn : match n.op with
      | none => True
      | some o => o.okAt g.length = true) :
    WFb (g ++ [n]) = true := by
  have hwf' : wfFrom g 0 = true := hwf
  rw [WFb, wfFrom_append, hwf', Bool.true_and, Nat.zero_add, wfFrom]
  cases hno : n.op with
  | none => rfl
  | some o =>
    rw [hno] at hn
    simp [hn, wfFrom]

theorem Built.wfb {F : FloatFns α} {g : Graph α}
    (h : Built F ([] : Graph α) g) : WFb g = true := by
  induction h with
  | refl => rfl
  | leaf x _ ih => exact WFb_append_ok ih trivial
  | addStep _ hi hj ih =>
    exact WFb_append_ok ih (by simp [Op.okAt, hi, hj])
  | mulStep _ hi hj ih =>
    exact WFb_append_ok ih (by simp [Op.okAt, hi, hj])
  | powStep _ hi hj ih =>
    exact WFb_append_ok ih (by simp [Op.okAt, hi, hj])
  | expStep _ hi ih => exact WFb_append_ok ih (by simp [Op.okAt, hi])
  | tanhStep _ hi ih => exact WFb_append_ok ih (by simp [Op.okAt, hi])

theorem gradAt_append_zero {g : Graph α} {n : Node α}
    (hg : ∀ j, gradAt g j = 0) (hn : n.grad = 0) :
    ∀ j, gradAt (g ++ [n]) j = 0 := by
  intro j
  rcases Nat.lt_trichotomy j g.length with hj | hj | hj
  · rw [gradAt, getD_append_lt _ _ hj]
    exact hg j
  · rw [gradAt, hj, getD_append_len]
    exact hn
  · rw [gradAt, getD_oob]
    · rfl
    · simpa using hj

theorem gradAt_incGrad_cases (g : Graph α) (a : Nat) (d : α) (j : Nat)
    (haL : a < g.length) :
    gradAt (incGrad g a d) j = gradAt g j + (if j = a then d else 0) := by
  by_cases h : j = a
  · subst h
    rw [gradAt_incGrad_self g d haL]
    simp
  · rw [gradAt_incGrad_ne g d (fun he => h he.symm)]
    simp [h]

theorem gradAt_backward (F : FloatFns α) {g : Graph α}
    (hwf : WFb g = true) (i j : Nat) :
    gradAt (backward F g i) j = gradAt g j + delta F g i j := by
  cases hop : opAt g i with
  | none => simp [backward, delta, hop]
  | some o =>
    have hlen := opAt_lt_length hop
    have hok := wfb_opAt hwf hop
    cases o with
    | tanh a =>
      have ha : a < i := by simpa [Op.okAt] using hok
      simp only [backward, delta, hop]
      exact gradAt_incGrad_cases g a _ j (Nat.lt_trans ha hlen)
    | exp a =>
      have ha : a < i := by simpa [Op.okAt] using hok
      simp only [backward, delta, hop]
      exact gradAt_incGrad_cases g a _ j (Nat.lt_trans ha hlen)
    | pow a k =>
      have hak : a < i ∧ k < i := by simpa [Op.okAt] using hok
      simp only [backward, delta, hop]
      exact gradAt_incGrad_cases g a _ j (Nat.lt_trans hak.1 hlen)
    | add a b =>
      have hab : a < i ∧ b < i := by simpa [Op.okAt] using hok
      have haL := Nat.lt_trans hab.1 hlen
      have hbL := Nat.lt_trans hab.2 hlen
      simp only [backward, delta, hop]
      rw [gradAt_incGrad_cases _ b _ j (by rw [length_incGrad]; exact hbL),
        gradAt_incGrad_cases g a _ j haL,
        gradAt_incGrad_ne g _ (Nat.ne_of_lt hab.1)]
      ring
    | mul a b =>
      have hab : a < i ∧ b < i := by simpa [Op.okAt] using hok
      have haL := Nat.lt_trans hab.1 hlen
      have hbL := Nat.lt_trans hab.2 hlen
      simp only [backward, delta, hop]
      rw [gradAt_incGrad_cases _ b _ j (by rw [length_incGrad]; exact hbL),
        gradAt_incGrad_cases g a _ j haL, dataAt_incGrad,
        gradAt_incGrad_ne g _ (Nat.ne_of_lt hab.1)]
      ring

theorem hasTanh_of_opAt {g : Graph α} {i a : Nat}
    (h : opAt g i = some (.tanh a)) : hasTanh g = true := by
  have hlen := opAt_lt_length h
  rw [hasTanh, List.any_eq_true]
  refine ⟨g.getD i dNode, ?_, ?_⟩
  · rw [List.getD_eq_getElem?_getD, List.getElem?_eq_getElem hlen]
    exact List.getElem_mem hlen
  · rw [opAt] at h
    rw [h]

theorem noTanh_opAt {g : Graph α} (h : hasTanh g = false) (i a : Nat) :
    opAt g i ≠ some (.tanh a) := by
  intro hc
  rw [hasTanh_of_opAt hc] at h
  cases h

theorem backward_main_eq {F : FloatFns α} {g : Graph α}
    (h : ∀ k a, opAt g k ≠ some (.tanh a)) (i : Nat) :
    backward_main F g i = backward F g i := by
  cases hop : opAt g i with
  | none => simp [backward_main, backward, hop]
  | some o =>
    cases o with
    | tanh a => exact absurd hop (h i a)
    | exp a => simp [backward_main, backward, hop]
    | pow a k => simp [backward_main, backward, hop]
    | add a b => simp [backward_main, backward, hop]
    | mul a b => simp [backward_main, backward, hop]

theorem foldl_backward_main_eq {F : FloatFns α} :
    ∀ (l : List Nat) (g : Graph α), (∀ k a, opAt g k ≠ some (.tanh a)) →
      l.foldl (fun acc i => backward_main F acc i) g =
        l.foldl (fun acc i => backward F acc i) g := by
  intro l
  induction l with
  | nil => intro g _; rfl
  | cons x xs ih =>
    intro g h
    rw [List.foldl_cons, List.foldl_cons, backward_main_eq h x]
    exact ih _ fun k a => by rw [opAt_backward]; exact h k a

theorem Built.gradAt_zero {F : FloatFns α} {g : Graph α}
    (h : Built F ([] : Graph α) g) : ∀ j, gradAt g j = 0 := by
  induction h with
  | refl =>
    intro j
    rw [gradAt, getD_oob _ (Nat.zero_le j)]
    rfl
  | leaf x _ ih => exact gradAt_append_zero ih rfl
  | addStep _ _ _ ih => exact gradAt_append_zero ih rfl
  | mulStep _ _ _ ih => exact gradAt_append_zero ih rfl
  | powStep _ _ _ ih => exact gradAt_append_zero ih rfl
  | expStep _ _ ih => exact gradAt_append_zero ih rfl
  | tanhStep _ _ ih => exact gradAt_append_zero ih rfl

theorem tanhR_eq_tanh (x : ℝ) : tanhR x = Real.tanh x := by
  rw [tanhR, Real.tanh_eq_sinh_div_cosh, Real.sinh_eq, Real.cosh_eq, Real.exp_neg]
  have he : (0:ℝ) < Real.exp x := Real.exp_pos x
  have h2 : Real.exp (2 * x) = Real.exp x * Real.exp x := by
    rw [two_mul, Real.exp_add]
  rw [h2]
  field_simp

theorem tanhR_lt_one (x : ℝ) : tanhR x < 1 := by
  rw [tanhR]
  have h := Real.exp_pos (2 * x)
  rw [div_lt_one (by linarith)]
  linarith

theorem tanhR_pos {x : ℝ} (hx : 0 < x) : 0 < tanhR x := by
  rw [tanhR]
  have h1 : 1 < Real.exp (2 * x) := Real.one_lt_exp_iff.mpr (by linarith)
  exact div_pos (by linarith) (by linarith)

theorem grad_gtanh_value :
    gradAt (full_backward rFns gtanh 1) 0 = 1 - tanhR 1 ^ 2 := by
  show (0:ℝ) + (1 - tanhR 1 ^ 2) * 1 = 1 - tanhR 1 ^ 2
  ring

theorem grad_gtanh_main :
    gradAt (full_backward_main rFns gtanh 1) 0 = 1 - tanhR (tanhR 1) ^ 2 := by
  show (0:ℝ) + (1 - tanhR (tanhR 1) ^ 2) * 1 = 1 - tanhR (tanhR 1) ^ 2
  ring

theorem tanhR_fix_ne : tanhR (tanhR 1) ≠ tanhR 1 := by
  intro heq
  have hT1 : tanhR 1 < 1 := tanhR_lt_one 1
  have hTpos : (0:ℝ) < tanhR 1 := tanhR_pos one_pos
  rw [tanhR] at heq
  have hE2 : (0:ℝ) < Real.exp (2 * tanhR 1) := Real.exp_pos _
  have hden : Real.exp (2 * tanhR 1) + 1 ≠ 0 := by linarith
  rw [div_eq_iff hden] at heq
  have h2 : Real.exp (2 * tanhR 1) * (1 - tanhR 1) = 1 + tanhR 1 := by nlinarith
  have hE : (0:ℝ) < Real.exp 2 := Real.exp_pos 2
  have hTdef : tanhR 1 = (Real.exp 2 - 1) / (Real.exp 2 + 1) := by
    rw [tanhR]
    norm_num
  have hden2 : Real.exp 2 + 1 ≠ 0 := by linarith
  have h1T : 1 - tanhR 1 = 2 / (Real.exp 2 + 1) := by
    rw [hTdef]
    field_simp
    norm_num
  have h2T : 1 + tanhR 1 = 2 * Real.exp 2 / (Real.exp 2 + 1) := by
    rw [hTdef]
    field_simp
    ring
  have h3 : Real.exp (2 * tanhR 1) = Real.exp 2 := by
    rw [h1T, h2T] at h2
    field_simp at h2
    nlinarith
  have h4 : 2 * tanhR 1 = 2 := Real.exp_eq_exp.mp h3
  linarith

theorem dataAt_foldl_backward (F : FloatFns α) (l : List Nat) (g : Graph α)
    (j : Nat) :
    dataAt (l.foldl (fun acc i => backward F acc i) g) j = dataAt g j := by
  induction l generalizing g with
  | nil => rfl
  | cons x xs ih => rw [List.foldl_cons, ih, dataAt_backward]

theorem opAt_foldl_backward (F : FloatFns α) (l : List Nat) (g : Graph α)
    (j : Nat) :
    opAt (l.foldl (fun acc i => backward F acc i) g) j = opAt g j := by
  induction l generalizing g with
  | nil => rfl
  | cons x xs ih => rw [List.foldl_cons, ih, opAt_backward]

theorem build_topo_head_leaf {g : Graph α} (hwf : WFb g = true) :
    ∀ i fuel, i < fuel →
      ∃ l, (build_topo g fuel i).head? = some l ∧ opAt g l = none := by
  intro i
  induction i using Nat.strong_induction_on with
  | _ i ih =>
    intro fuel hf
    obtain ⟨f, rfl⟩ : ∃ f, fuel = f + 1 := ⟨fuel - 1, by omega⟩
    rw [build_topo]
    cases hop : opAt g i with
    | none => exact ⟨i, by simp, hop⟩
    | some o =>
      have hok := wfb_opAt hwf hop
      cases o with
      | tanh a =>
        simp only [Op.okAt, decide_eq_true_eq] at hok
        obtain ⟨l, hl, hleaf⟩ := ih a hok f (by omega)
        refine ⟨l, ?_, hleaf⟩
        rw [List.head?_append, hl]
        rfl
      | exp a =>
        simp only [Op.okAt, decide_eq_true_eq] at hok
        obtain ⟨l, hl, hleaf⟩ := ih a hok f (by omega)
        refine ⟨l, ?_, hleaf⟩
        rw [List.head?_append, hl]
        rfl
      | pow a k =>
        simp only [Op.okAt, Bool.and_eq_true, decide_eq_true_eq] at hok
        obtain ⟨l, hl, hleaf⟩ := ih a hok.1 f (by omega)
        refine ⟨l, ?_, hleaf⟩
        rw [List.head?_append, List.head?_append, hl]
        rfl
      | add a b =>
        simp only [Op.okAt, Bool.and_eq_true, decide_eq_true_eq] at hok
        obtain ⟨l, hl, hleaf⟩ := ih a hok.1 f (by omega)
        refine ⟨l, ?_, hleaf⟩
        rw [List.head?_append, List.head?_append, hl]
        rfl
      | mul a b =>
        simp only [Op.okAt, Bool.and_eq_true, decide_eq_true_eq] at hok
        obtain ⟨l, hl, hleaf⟩ := ih a hok.1 f (by omega)
        refine ⟨l, ?_, hleaf⟩
        rw [List.head?_append, List.head?_append, hl]
        rfl

theorem reversed_topo_last_leaf {g : Graph α} (hwf : WFb g = true)
    (i : Nat) :
    ∃ l, (reversed_topo g i).getLast? = some l ∧ opAt g l = none := by
  obtain ⟨l, h1, h2⟩ := build_topo_head_leaf hwf i (i + 1) (by omega)
  exact ⟨l, by rw [reversed_topo, List.getLast?_reverse, h1], h2⟩

theorem sum_fold_data (g : Graph α) :
    ∀ (is : List Nat) (gacc : Graph α) (acc : Nat),
      (∀ m < g.length, dataAt gacc m = dataAt g m) →
      g.length ≤ gacc.length → acc < gacc.length →
      (∀ m ∈ is, m < g.length) →
      dataAt (is.foldl (fun p j => add p.1 p.2 j) (gacc, acc)).1
          (is.foldl (fun p j => add p.1 p.2 j) (gacc, acc)).2 =
        dataAt gacc acc + (is.map (dataAt g)).sum := by
  intro is
  induction is with
  | nil =>
    intro gacc acc _ _ _ _
    simp
  | cons x xs ih =>
    intro gacc acc hdata hlen hacc hmem
    rw [List.foldl_cons]
    have hxg : x < g.length := hmem x (List.mem_cons_self x xs)
    have hx : x < gacc.length := Nat.lt_of_lt_of_le hxg hlen
    show dataAt (xs.foldl (fun p j => add p.1 p.2 j)
        (gacc ++ [⟨dataAt gacc acc + dataAt gacc x, 0, some (.add acc x)⟩],
          gacc.length)).1
        (xs.foldl (fun p j => add p.1 p.2 j)
          (gacc ++ [⟨dataAt gacc acc + dataAt gacc x, 0, some (.add acc x)⟩],
            gacc.length)).2 =
      dataAt gacc acc + (List.map (dataAt g) (x :: xs)).sum
    have hih := ih
      (gacc ++ [⟨dataAt gacc acc + dataAt gacc x, 0, some (.add acc x)⟩])
      gacc.length
      (fun m hm => by
        rw [dataAt, getD_append_lt _ _ (Nat.lt_of_lt_of_le hm hlen)]
        exact hdata m hm)
      (by rw [List.length_append]; omega)
      (by rw [List.length_append]; simp)
      (fun m hm => hmem m (List.mem_cons_of_mem x hm))
    rw [hih]
    have hacc' : dataAt (gacc ++ [⟨dataAt gacc acc + dataAt gacc x, 0,
        some (.add acc x)⟩]) gacc.length =
        dataAt gacc acc + dataAt gacc x := by
      rw [dataAt, getD_append_len]
    rw [hacc', List.map_cons, List.sum_cons, hdata x hxg]
    ring

theorem sum_data (g : Graph α) (is : List Nat)
    (h : ∀ m ∈ is, m < g.length) :
    dataAt (sum g is).1 (sum g is).2 = (is.map (dataAt g)).sum := by
  have h1 := sum_fold_data g is (g ++ [(⟨0, 0, none⟩ : Node α)]) g.length
    (fun m hm => by rw [dataAt, getD_append_lt _ _ hm]; rfl)
    (by rw [List.length_append]; omega)
    (by rw [List.length_append]; simp)
    h
  have h0 : dataAt (g ++ [(⟨0, 0, none⟩ : Node α)]) g.length = 0 := by
    rw [dataAt, getD_append_len]
  rw [h0, zero_add] at h1
  exact h1

/-- C1: evaluation of the code at the failing input.  `reversed_topo` has
no visited set, so a node reachable through several paths is emitted once
per path, not exactly once: for `y = x + x` (graph `gxx`) the reversed
list is `[y, x, x]` — the shared leaf appears twice — and for `t = s * s`
with `s = a + b` (graph `gss`) the shared interior node `s` is emitted and
replayed twice, leaving gradient `8` on each leaf where the chain rule
gives `4`. -/
theorem C1_topo_duplicate_emission :
    reversed_topo gxx 1 = [1, 0, 0] ∧
    (reversed_topo gxx 1).count 0 = 2 ∧
    reversed_topo gss 3 = [3, 2, 1, 0, 2, 1, 0] ∧
    (reversed_topo gss 3).count 2 = 2 ∧
    gradAt (full_backward zFns gss 3) 2 = 4 ∧
    gradAt (full_backward zFns gss 3) 0 = 8 := by decide

/-- C2: for `y = x + x` with `x.value = 3` — one shared leaf cell used as
both operands of a single Add node — `full_backward` from `y` leaves
gradient `2` (not `1`) on `x`: both addends' contributions accumulate into
the one shared gradient cell. -/
theorem C2_shared_leaf_accumulation :
    dataAt gxx 0 = 3 ∧ opAt gxx 0 = none ∧
    opAt gxx 1 = some (.add 0 0) ∧
    gradAt (full_backward zFns gxx 1) 0 = 2 := by decide

/-- C10: graph-vertex identity is shared-cell identity (the arena index),
not structural equality: in `gxx` both operand slots of the Add node hold
the same index and the accumulated gradient `2` is observable through that
single cell, while in `gxy` two structurally identical leaves (equal data,
gradient and provenance) are distinct vertices, each accumulating its own
gradient `1`. -/
theorem C10_shared_cell_identity :
    opAt gxx 1 = some (.add 0 0) ∧
    gradAt (full_backward zFns gxx 1) 0 = 2 ∧
    gxy.getD 0 dNode = gxy.getD 1 dNode ∧
    opAt gxy 2 = some (.add 0 1) ∧
    gradAt (full_backward zFns gxy 2) 0 = 1 ∧
    gradAt (full_backward zFns gxy 2) 1 = 1 := by decide

/-- C3: `full_backward` seeds the root gradient with exactly `1`,
overwriting any prior value there (the run is independent of a
pre-existing root gradient), replays the reversed post-order list whose
head is the root and whose last element is a leaf, and each replay step
changes gradients only by accumulation: the new gradient of every node
`j` equals its old gradient plus the local-rule contribution `delta`. -/
theorem C3_seed_overwrite_replay_accumulates (F : FloatFns α)
    (g : Graph α) (r : Nat) (c : α) (hwf : WFb g = true)
    (hr : r < g.length) :
    full_backward F (setGrad g r c) r = full_backward F g r ∧
    gradAt (setGrad g r 1) r = 1 ∧
    (reversed_topo g r).head? = some r ∧
    (∃ l, (reversed_topo g r).getLast? = some l ∧ opAt g l = none) ∧
    (∀ i j, gradAt (backward F g i) j = gradAt g j + delta F g i j) := by
  refine ⟨?_, gradAt_setGrad_self g 1 hr, reversed_topo_head g r,
    reversed_topo_last_leaf hwf r, fun i j => gradAt_backward F hwf i j⟩
  show (reversed_topo (setGrad g r c) r).foldl
      (fun acc i => backward F acc i) (setGrad (setGrad g r c) r 1) =
    (reversed_topo g r).foldl (fun acc i => backward F acc i)
      (setGrad g r 1)
  rw [setGrad_setGrad, reversed_topo_congr (opAt_setGrad g r c)]

/-- Witness for C3 at the concrete graph `gxx`, root `1`, prior root
gradient `5`. -/
theorem C3_witness :
    (WFb gxx = true ∧ 1 < gxx.length) ∧
    (full_backward zFns (setGrad gxx 1 5) 1 = full_backward zFns gxx 1 ∧
      gradAt (setGrad gxx 1 1) 1 = 1 ∧
      (reversed_topo gxx 1).head? = some 1 ∧
      (∃ l, (reversed_topo gxx 1).getLast? = some l ∧ opAt gxx l = none) ∧
      (∀ i j, gradAt (backward zFns gxx i) j =
        gradAt gxx j + delta zFns gxx i j)) :=
  ⟨⟨by decide, by decide⟩,
    C3_seed_overwrite_replay_accumulates zFns gxx 1 5 (by decide) (by decide)⟩

/-- C5: the backward rule of a `Pow(a, k)` node adds
`k.value * a.value ^ (k.value - 1) * self.grad` to the base's gradient
and changes no other gradient; in particular the exponent node's gradient
is untouched whenever the exponent is not the base node itself. -/
theorem C5_pow_backward_frame (F : FloatFns α) {g : Graph α} {i a k : Nat}
    (hwf : WFb g = true) (hop : opAt g i = some (.pow a k)) (hka : k ≠ a) :
    gradAt (backward F g i) a =
      gradAt g a +
        dataAt g k * F.fpowf (dataAt g a) (dataAt g k - 1) * gradAt g i ∧
    gradAt (backward F g i) k = gradAt g k ∧
    (∀ j, j ≠ a → gradAt (backward F g i) j = gradAt g j) := by
  have hchar := fun j => gradAt_backward F hwf i j
  refine ⟨?_, ?_, fun j hj => ?_⟩
  · rw [hchar a]
    simp [delta, hop]
  · rw [hchar k]
    simp [delta, hop, hka]
  · rw [hchar j]
    simp [delta, hop, hj]

/-- Witness for C5 on a three-node graph whose `Pow` root carries
gradient `1`. -/
theorem C5_witness :
    (WFb ([⟨2, 0, none⟩, ⟨3, 0, none⟩,
        ⟨8, 1, some (.pow 0 1)⟩] : Graph ℤ) = true ∧
      opAt ([⟨2, 0, none⟩, ⟨3, 0, none⟩,
        ⟨8, 1, some (.pow 0 1)⟩] : Graph ℤ) 2 = some (.pow 0 1) ∧
      (1 : Nat) ≠ 0) ∧
    (gradAt (backward zFns ([⟨2, 0, none⟩, ⟨3, 0, none⟩,
        ⟨8, 1, some (.pow 0 1)⟩] : Graph ℤ) 2) 0 =
      gradAt ([⟨2, 0, none⟩, ⟨3, 0, none⟩,
        ⟨8, 1, some (.pow 0 1)⟩] : Graph ℤ) 0 +
        dataAt ([⟨2, 0, none⟩, ⟨3, 0, none⟩,
          ⟨8, 1, some (.pow 0 1)⟩] : Graph ℤ) 1 *
          zFns.fpowf (dataAt ([⟨2, 0, none⟩, ⟨3, 0, none⟩,
            ⟨8, 1, some (.pow 0 1)⟩] : Graph ℤ) 0)
            (dataAt ([⟨2, 0, none⟩, ⟨3, 0, none⟩,
              ⟨8, 1, some (.pow 0 1)⟩] : Graph ℤ) 1 - 1) *
          gradAt ([⟨2, 0, none⟩, ⟨3, 0, none⟩,
            ⟨8, 1, some (.pow 0 1)⟩] : Graph ℤ) 2 ∧
      gradAt (backward zFns ([⟨2, 0, none⟩, ⟨3, 0, none⟩,
          ⟨8, 1, some (.pow 0 1)⟩] : Graph ℤ) 2) 1 =
        gradAt ([⟨2, 0, none⟩, ⟨3, 0, none⟩,
          ⟨8, 1, some (.pow 0 1)⟩] : Graph ℤ) 1 ∧
      (∀ j, j ≠ 0 → gradAt (backward zFns ([⟨2, 0, none⟩, ⟨3, 0, none⟩,
          ⟨8, 1, some (.pow 0 1)⟩] : Graph ℤ) 2) j =
        gradAt ([⟨2, 0, none⟩, ⟨3, 0, none⟩,
          ⟨8, 1, some (.pow 0 1)⟩] : Graph ℤ) j)) :=
  ⟨⟨by decide, by decide, by decide⟩,
    C5_pow_backward_frame zFns (by decide) (by decide) (by decide)⟩

/-- C9: every graph reachable through the public construction surface is
well formed — each node's operands strictly precede it — and on such
graphs the depth-first `build_topo` recursion is total: any fuel of at
least `i + 1` computes the same list, so `reversed_topo` terminates and
the replay of `full_backward` is a fold over that finite list. -/
theorem C9_backward_terminates (F : FloatFns α) {g : Graph α}
    (hb : Built F ([] : Graph α) g) :
    WFb g = true ∧
    (∀ i fuel, i < fuel → build_topo g fuel i = build_topo g (i + 1) i) :=
  ⟨hb.wfb, fun i fuel hf =>
    build_topo_stable hb.wfb i fuel (i + 1) hf (by omega)⟩

/-- Witness for C9 on the constructed graph `gxx`. -/
theorem C9_witness :
    WFb gxx = true ∧
    (∀ i fuel, i < fuel →
      build_topo gxx fuel i = build_topo gxx (i + 1) i) :=
  C9_backward_terminates zFns
    (Built.addStep (Built.leaf 3 (Built.refl [])) (by decide) (by decide))

/-- C8: a leaf is created with gradient `0`, growing a graph by any
constructor never changes an existing node's gradient, and consequently
every gradient cell of a purely constructed graph — no backward pass yet —
reads the zero default (reading early is not an error). -/
theorem C8_grad_zero_before_backward (F : FloatFns α) {g g' : Graph α}
    (hb : Built F g g') (hroot : Built F ([] : Graph α) g') (x : α) :
    gradAt (new g x).1 (new g x).2 = 0 ∧
    (∀ j < g.length, gradAt g' j = gradAt g j) ∧
    (∀ j, gradAt g' j = 0) := by
  refine ⟨?_, fun j hj => ?_, hroot.gradAt_zero⟩
  · show gradAt (g ++ [⟨x, 0, none⟩]) g.length = 0
    rw [gradAt, getD_append_len]
  · rw [gradAt, gradAt, hb.getD_frame j hj]

/-- Witness for C8: `gxx` grown from the one-leaf graph. -/
theorem C8_witness :
    gradAt (new (new ([] : Graph ℤ) 3).1 7).1 (new (new ([] : Graph ℤ) 3).1 7).2 = 0 ∧
    (∀ j < (new ([] : Graph ℤ) 3).1.length,
      gradAt gxx j = gradAt (new ([] : Graph ℤ) 3).1 j) ∧
    (∀ j, gradAt gxx j = 0) :=
  C8_grad_zero_before_backward zFns
    (Built.addStep (Built.refl (new ([] : Graph ℤ) 3).1) (by decide) (by decide))
    (Built.addStep (Built.leaf 3 (Built.refl [])) (by decide) (by decide)) 7

theorem dataAt_new_self (g : Graph α) (x : α) :
    dataAt (new g x).1 (new g x).2 = x := by
  show dataAt (g ++ [⟨x, 0, none⟩]) g.length = x
  rw [dataAt, getD_append_len]

theorem dataAt_new_lt (g : Graph α) (x : α) {j : Nat} (hj : j < g.length) :
    dataAt (new g x).1 j = dataAt g j := by
  show dataAt (g ++ [⟨x, 0, none⟩]) j = dataAt g j
  rw [dataAt, getD_append_lt _ _ hj]
  rfl

theorem dataAt_add_self (g : Graph α) (a b : Nat) :
    dataAt (add g a b).1 (add g a b).2 = dataAt g a + dataAt g b := by
  show dataAt (g ++ [⟨dataAt g a + dataAt g b, 0, some (.add a b)⟩])
    g.length = _
  rw [dataAt, getD_append_len]

theorem dataAt_mul_self (g : Graph α) (a b : Nat) :
    dataAt (mul g a b).1 (mul g a b).2 = dataAt g a * dataAt g b := by
  show dataAt (g ++ [⟨dataAt g a * dataAt g b, 0, some (.mul a b)⟩])
    g.length = _
  rw [dataAt, getD_append_len]

theorem opAt_mul_self (g : Graph α) (a b : Nat) :
    opAt (mul g a b).1 (mul g a b).2 = some (.mul a b) := by
  show opAt (g ++ [⟨dataAt g a * dataAt g b, 0, some (.mul a b)⟩])
    g.length = _
  rw [opAt, getD_append_len]

theorem opAt_pow_self (F : FloatFns α) (g : Graph α) (a k : Nat) :
    opAt (pow F g a k).1 (pow F g a k).2 = some (.pow a k) := by
  show opAt (g ++ [⟨F.fpowf (dataAt g a) (dataAt g k), 0,
    some (.pow a k)⟩]) g.length = _
  rw [opAt, getD_append_len]

theorem data_neg (g : Graph α) (i : Nat) (hi : i < g.length) :
    dataAt (neg g i).1 (neg g i).2 = -dataAt g i := by
  show dataAt (mul (new g (-1 : α)).1 i (new g (-1 : α)).2).1
    (mul (new g (-1 : α)).1 i (new g (-1 : α)).2).2 = _
  rw [dataAt_mul_self, dataAt_new_lt g _ hi, dataAt_new_self]
  ring

theorem dataAt_neg_lt (g : Graph α) (j : Nat) {m : Nat}
    (hm : m < g.length) : dataAt (neg g j).1 m = dataAt g m := by
  show dataAt ((new g (-1 : α)).1 ++
    [⟨dataAt (new g (-1 : α)).1 j * dataAt (new g (-1 : α)).1
      (new g (-1 : α)).2, 0, some (.mul j (new g (-1 : α)).2)⟩]) m = _
  rw [dataAt, getD_append_lt]
  · exact dataAt_new_lt g _ hm
  · show m < (g ++ [(⟨-1, 0, none⟩ : Node α)]).length
    rw [List.length_append]
    omega

theorem neg_id_eq (g : Graph α) (j : Nat) : (neg g j).2 = g.length + 1 := by
  show (new g (-1 : α)).1.length = g.length + 1
  show (g ++ [(⟨-1, 0, none⟩ : Node α)]).length = g.length + 1
  rw [List.length_append]
  rfl

theorem data_sub (g : Graph α) (i j : Nat) (hi : i < g.length)
    (hj : j < g.length) :
    dataAt (sub g i j).1 (sub g i j).2 = dataAt g i - dataAt g j := by
  show dataAt (add (neg g j).1 i (neg g j).2).1
    (add (neg g j).1 i (neg g j).2).2 = _
  rw [dataAt_add_self, dataAt_neg_lt g j hi]
  have hneg : dataAt (neg g j).1 (neg g j).2 = -dataAt g j :=
    data_neg g j hj
  rw [hneg]
  ring

/-- C6 counterexample: scalar division (`Div<f32>`) does not first promote
the scalar divisor to a leaf node and divide; it computes the reciprocal
with `f32::powf` and scalar-multiplies by it, so no `Pow` node is
allocated: on a one-leaf graph the two recipes produce different graphs
(three nodes versus five). -/
theorem C6_scalar_div_cex :
    div_scalar zFns g5 0 2 ≠ div_scalar_spec zFns g5 0 2 := by decide

/-- C6 amended: negate, subtract, Value-by-Value divide, scalar add and
multiply (either side) and summation are compositions of the primitives
exactly as claimed — negation multiplies by a fresh `-1` leaf, subtraction
adds the negation, division multiplies by `powf(other, -1)` through the
`Pow` primitive, scalar add/multiply promote the scalar to a leaf, and
summation is a left fold over Add from a zero leaf whose data is the sum
of the operands' data — but scalar division computes the reciprocal in
scalar arithmetic and scalar-multiplies by it instead of promoting the
divisor. -/
theorem C6_derived_compositional (F : FloatFns α) (g : Graph α)
    (i j : Nat) (c : α) (is : List Nat) (hi : i < g.length)
    (hj : j < g.length) :
    neg g i = mul_scalar g i (-1) ∧
    sub g i j = add (neg g j).1 i (neg g j).2 ∧
    div F g i j = mul (powf F g j (-1)).1 i (powf F g j (-1)).2 ∧
    add_scalar g i c = add (new g c).1 i (new g c).2 ∧
    scalar_add g c i = add (new g c).1 (new g c).2 i ∧
    mul_scalar g i c = mul (new g c).1 i (new g c).2 ∧
    scalar_mul g c i = mul (new g c).1 (new g c).2 i ∧
    div_scalar F g i c = mul_scalar g i (F.fpowf c (-1)) ∧
    sum g is = is.foldl (fun p m => add p.1 p.2 m) (new g 0) ∧
    dataAt (neg g i).1 (neg g i).2 = -dataAt g i ∧
    dataAt (sub g i j).1 (sub g i j).2 = dataAt g i - dataAt g j ∧
    opAt (div F g i j).1 (div F g i j).2 =
      some (.mul i (powf F g j (-1)).2) ∧
    opAt (powf F g j (-1)).1 (powf F g j (-1)).2 =
      some (.pow j (new g (-1 : α)).2) ∧
    ((∀ m ∈ is, m < g.length) →
      dataAt (sum g is).1 (sum g is).2 = (is.map (dataAt g)).sum) :=
  ⟨rfl, rfl, rfl, rfl, rfl, rfl, rfl, rfl, rfl,
    data_neg g i hi, data_sub g i j hi hj,
    opAt_mul_self (powf F g j (-1)).1 i (powf F g j (-1)).2,
    opAt_pow_self F (new g (-1 : α)).1 j (new g (-1 : α)).2,
    fun h => sum_data g is h⟩

/-- Witness for C6 on the one-leaf graph `g5`. -/
theorem C6_witness :
    ((0 : Nat) < g5.length ∧ (0 : Nat) < g5.length) ∧
    (neg g5 0 = mul_scalar g5 0 (-1) ∧
      sub g5 0 0 = add (neg g5 0).1 0 (neg g5 0).2 ∧
      div zFns g5 0 0 =
        mul (powf zFns g5 0 (-1)).1 0 (powf zFns g5 0 (-1)).2 ∧
      add_scalar g5 0 2 = add (new g5 2).1 0 (new g5 2).2 ∧
      scalar_add g5 2 0 = add (new g5 2).1 (new g5 2).2 0 ∧
      mul_scalar g5 0 2 = mul (new g5 2).1 0 (new g5 2).2 ∧
      scalar_mul g5 2 0 = mul (new g5 2).1 (new g5 2).2 0 ∧
      div_scalar zFns g5 0 2 = mul_scalar g5 0 (zFns.fpowf 2 (-1)) ∧
      sum g5 [0, 0] = [0, 0].foldl (fun p m => add p.1 p.2 m) (new g5 0) ∧
      dataAt (neg g5 0).1 (neg g5 0).2 = -dataAt g5 0 ∧
      dataAt (sub g5 0 0).1 (sub g5 0 0).2 = dataAt g5 0 - dataAt g5 0 ∧
      opAt (div zFns g5 0 0).1 (div zFns g5 0 0).2 =
        some (.mul 0 (powf zFns g5 0 (-1)).2) ∧
      opAt (powf zFns g5 0 (-1)).1 (powf zFns g5 0 (-1)).2 =
        some (.pow 0 (new g5 (-1 : ℤ)).2) ∧
      ((∀ m ∈ [0, 0], m < g5.length) →
        dataAt (sum g5 [0, 0]).1 (sum g5 [0, 0]).2 =
          ([0, 0].map (dataAt g5)).sum)) :=
  ⟨⟨by decide, by decide⟩,
    C6_derived_compositional zFns g5 0 0 2 [0, 0] (by decide) (by decide)⟩

/-- C7: every forward operator returns the old arena plus one appended
node — computed data, gradient `0`, provenance referencing the operands —
leaving every pre-existing node (in particular each operand's data and
provenance) untouched, and the backward pass mutates gradients only: the
data and provenance of every node are unchanged by `full_backward`. -/
theorem C7_forward_fresh_backward_grad_only (F : FloatFns α)
    (g : Graph α) (a b r : Nat) (x : α) :
    (new g x).1 = g ++ [⟨x, 0, none⟩] ∧
    (add g a b).1 = g ++ [⟨dataAt g a + dataAt g b, 0, some (.add a b)⟩] ∧
    (mul g a b).1 = g ++ [⟨dataAt g a * dataAt g b, 0, some (.mul a b)⟩] ∧
    (pow F g a b).1 =
      g ++ [⟨F.fpowf (dataAt g a) (dataAt g b), 0, some (.pow a b)⟩] ∧
    (exp F g a).1 = g ++ [⟨F.fexp (dataAt g a), 0, some (.exp a)⟩] ∧
    (tanh F g a).1 = g ++
      [⟨(F.fexp (2 * dataAt g a) - 1) / (F.fexp (2 * dataAt g a) + 1), 0,
        some (.tanh a)⟩] ∧
    (∀ (n : Node α), ∀ j < g.length,
      (g ++ [n]).getD j dNode = g.getD j dNode) ∧
    (∀ j, dataAt (full_backward F g r) j = dataAt g j ∧
      opAt (full_backward F g r) j = opAt g j) := by
  refine ⟨rfl, rfl, rfl, rfl, rfl, rfl,
    fun n j hj => getD_append_lt g n hj, fun j => ⟨?_, ?_⟩⟩
  · show dataAt ((reversed_topo g r).foldl
      (fun acc i => backward F acc i) (setGrad g r 1)) j = dataAt g j
    rw [dataAt_foldl_backward, dataAt_setGrad]
  · show opAt ((reversed_topo g r).foldl
      (fun acc i => backward F acc i) (setGrad g r 1)) j = opAt g j
    rw [opAt_foldl_backward, opAt_setGrad]

/-- Witness for C7 on the one-leaf graph `g5`. -/
theorem C7_witness :
    (new g5 (7 : ℤ)).1 = g5 ++ [⟨7, 0, none⟩] ∧
    (add g5 0 0).1 =
      g5 ++ [⟨dataAt g5 0 + dataAt g5 0, 0, some (.add 0 0)⟩] ∧
    (mul g5 0 0).1 =
      g5 ++ [⟨dataAt g5 0 * dataAt g5 0, 0, some (.mul 0 0)⟩] ∧
    (pow zFns g5 0 0).1 =
      g5 ++ [⟨zFns.fpowf (dataAt g5 0) (dataAt g5 0), 0,
        some (.pow 0 0)⟩] ∧
    (exp zFns g5 0).1 = g5 ++ [⟨zFns.fexp (dataAt g5 0), 0,
      some (.exp 0)⟩] ∧
    (tanh zFns g5 0).1 = g5 ++
      [⟨(zFns.fexp (2 * dataAt g5 0) - 1) /
          (zFns.fexp (2 * dataAt g5 0) + 1), 0, some (.tanh 0)⟩] ∧
    (∀ (n : Node ℤ), ∀ j < g5.length,
      (g5 ++ [n]).getD j dNode = g5.getD j dNode) ∧
    (∀ j, dataAt (full_backward zFns g5 0) j = dataAt g5 j ∧
      opAt (full_backward zFns g5 0) j = opAt g5 j) :=
  C7_forward_fresh_backward_grad_only zFns g5 0 0 0 7

/-- C4 counterexample: the two engine copies disagree on the Tanh
backward rule.  On the graph `o = tanh x` with `x = 1` over the reals,
the src/value.rs engine leaves `1 - tanh(1)^2` on `x`, while the
src/main.rs engine evaluates the squash derivative at the Tanh node's own
output and leaves `1 - tanh(tanh 1)^2`; these real numbers differ. -/
theorem C4_tanh_backward_cex :
    gradAt (full_backward rFns gtanh 1) 0 ≠
      gradAt (full_backward_main rFns gtanh 1) 0 := by
  rw [grad_gtanh_value, grad_gtanh_main]
  intro h
  have h2 : tanhR (tanhR 1) ^ 2 = tanhR 1 ^ 2 := by linarith
  have hp1 : (0 : ℝ) < tanhR 1 := tanhR_pos one_pos
  have hp2 : (0 : ℝ) < tanhR (tanhR 1) := tanhR_pos hp1
  have hfac :
      (tanhR (tanhR 1) - tanhR 1) * (tanhR (tanhR 1) + tanhR 1) = 0 := by
    linear_combination h2
  rcases mul_eq_zero.mp hfac with h0 | h0
  · exact tanhR_fix_ne (by linarith)
  · linarith

/-- C4 amended: apart from the Tanh backward rule the two copies are the
same program, so on every graph containing no Tanh node the two engines
compute identical backward results (their forward constructors are
identical verbatim). -/
theorem C4_no_tanh_equiv (F : FloatFns α) (g : Graph α) (r : Nat)
    (h : hasTanh g = false) :
    full_backward_main F g r = full_backward F g r := by
  show (reversed_topo g r).foldl
      (fun acc i => backward_main F acc i) (setGrad g r 1) =
    (reversed_topo g r).foldl (fun acc i => backward F acc i)
      (setGrad g r 1)
  exact foldl_backward_main_eq _ _ fun k a => by
    rw [opAt_setGrad]
    exact noTanh_opAt h k a

/-- Witness for the amended C4 on the Tanh-free graph `gxx`. -/
theorem C4_witness :
    hasTanh gxx = false ∧
    full_backward_main zFns gxx 1 = full_backward zFns gxx 1 :=
  ⟨by decide, C4_no_tanh_equiv zFns gxx 1 (by decide)⟩
end MG
